import Mathlib

set_option maxHeartbeats 1000000

namespace UNot

/-! Shallow embedding of the drama-monitor pipeline from `src/index.ts`.
Strings are modelled as `List Char`; file contents and ledger lines are
character lists, and the JavaScript string operations used by the code
(`split('\n')`, `trim()`, `startsWith`, `replace(/^- /g, '')`) are modelled
by executable Lean functions over `List Char`. -/

/-- Whitespace recognizer modelling the characters removed by the JavaScript
`String.prototype.trim` on the ledger text (restricted to the ASCII whitespace
characters that can occur there). -/
def isWS (c : Char) : Bool :=
  c = ' ' || c = '\t' || c = '\n' || c = '\r'

/-- Model of JavaScript `trimStart`: drop leading whitespace. -/
def trimLeftC (l : List Char) : List Char := l.dropWhile isWS

/-- Model of JavaScript `trimEnd`: drop trailing whitespace. -/
def trimRightC (l : List Char) : List Char := (l.reverse.dropWhile isWS).reverse

/-- Model of JavaScript `trim`: drop whitespace at both ends. -/
def trimC (l : List Char) : List Char := trimRightC (trimLeftC l)

/-- Model of JavaScript `content.split('\n')`: split a character list at every
newline; the separators are consumed, empty segments are kept. -/
def splitLines : List Char → List (List Char)
  | [] => [[]]
  | c :: cs =>
    let r := splitLines cs
    if c = '\n' then [] :: r
    else (c :: r.headD []) :: r.tail

/-- Per-line step of `getExistingDramas` (src/index.ts lines 47-50): trim the
line; keep it only when it is non-empty and does not start with a heading
marker of either kind tested by the code (the literal tests are
`line.startsWith('##')` and `line.startsWith('# ')`); on a kept line strip one
leading list marker `- ` (the anchored `replace(/^- /g, '')`) and trim again. -/
def parseLine (line : List Char) : Option (List Char) :=
  let t := trimC line
  if !t.isEmpty && !(("##".toList).isPrefixOf t) && !(("# ".toList).isPrefixOf t) then
    some (trimC (if ("- ".toList).isPrefixOf t then t.drop 2 else t))
  else none

/-- Text-level body of `getExistingDramas` (src/index.ts lines 44-52): split
the ledger text into lines and apply the per-line map/filter chain.  The
JavaScript code finally wraps the resulting list in a `Set`; set membership is
modelled by list membership in the returned list. -/
def getExistingDramasOfText (content : List Char) : List (List Char) :=
  (splitLines content).filterMap parseLine

/-- Outcome of looking at the `drama-list.md` file: missing, or present with a
read that either yields the text or fails (models `Bun.file(...).exists()`
followed by `.text()`, whose failure is an exception). -/
inductive LedgerFile
  | absent
  | present (readResult : Except (List Char) (List Char))

/-- Model of `getExistingDramas` (src/index.ts lines 35-53) over a
`LedgerFile`: a missing file yields the empty known-items set; an existing
file is read with `.text()` and parsed — the function body contains no
try/catch, so a failing read propagates as an error. -/
def getExistingDramas : LedgerFile → Except (List Char) (List (List Char))
  | .absent => .ok []
  | .present (.error e) => .error e
  | .present (.ok content) => .ok (getExistingDramasOfText content)

/-- Exit code of the ledger-read phase: an error thrown there is not caught
inside `main`, so it reaches `main().catch` (src/index.ts lines 238-250),
which calls `process.exit(1)`; a successful read lets the run continue
(exit code 0 path). -/
def ledgerReadPhaseExit (f : LedgerFile) : Nat :=
  match getExistingDramas f with
  | .ok _ => 0
  | .error _ => 1

/-- Model of JavaScript `array.join('\n')`. -/
def joinNl : List (List Char) → List Char
  | [] => []
  | [x] => x
  | x :: xs => x ++ '\n' :: joinNl xs

/-- One per-source block of the new ledger section (src/index.ts lines
114-118): a `### <sourceName>` heading, the items each as `- <item>` joined by
newlines, and a trailing newline. -/
def sourceBlock (name : List Char) (dramas : List (List Char)) : List Char :=
  ("### ".toList) ++ name ++ ("\n".toList)
    ++ joinNl (dramas.map (fun d => ("- ".toList) ++ d)) ++ ("\n".toList)

/-- The complete new section built by `appendNewDramas` (src/index.ts lines
113-118): a leading blank line, a `## <timestamp>` heading and the per-source
blocks in map iteration order.  The timestamp is a parameter (the code derives
it from the wall clock via `getTimestamp`). -/
def newSection (m : List (List Char × List (List Char))) (ts : List Char) : List Char :=
  ("\n## ".toList) ++ ts ++ ("\n".toList)
    ++ (m.map (fun e => sourceBlock e.1 e.2)).flatten

/-- File-level model of `appendNewDramas` (src/index.ts lines 105-120): read
the current ledger text when the file exists (empty string otherwise) and
write back the old content followed by the new section as one full-content
write.  The returned value is the content written. -/
def appendNewDramas (existing : Option (List Char))
    (m : List (List Char × List (List Char))) (ts : List Char) : List Char :=
  (existing.getD []) ++ newSection m ts

/-! JSON model and path extraction (`jsonpath-plus` call in
`fetchDramasFromSource`).  The path expression string of a source (dot
segments such as `result.*.title`: field access and wildcard over the members
of an object or array) is modelled in parsed form as a list of segments. -/

/-- A JSON value. -/
inductive Json
  | null
  | bool (b : Bool)
  | num (n : Int)
  | str (s : List Char)
  | arr (elems : List Json)
  | obj (fields : List (List Char × Json))

/-- One segment of a dot-path expression: a field name or the wildcard `*`. -/
inductive Seg
  | field (name : List Char)
  | wildcard
deriving DecidableEq

/-- Values selected from one value by one path segment: field projection on an
object, wildcard over the members of an object or the elements of an array;
everything else matches nothing. -/
def segMatches : Seg → Json → List Json
  | .field f, .obj fs => (fs.filter (fun p => p.1 = f)).map (fun p => p.2)
  | .wildcard, .obj fs => fs.map (fun p => p.2)
  | .wildcard, .arr xs => xs
  | _, _ => []

/-- Model of the `JSONPath({path, json})` call: apply the segments in order,
starting from the root document, collecting all matches (the library returns
them wrapped in an array; a path matching zero nodes yields the empty array). -/
def jsonPathQuery (path : List Seg) (j : Json) : List Json :=
  path.foldl (fun vs seg => vs.flatMap (segMatches seg)) [j]

/-- A source descriptor (`Source` from src/config.ts): display name, url,
parsed path expression, optional extra request headers. -/
structure Source where
  name : Option (List Char)
  url : List Char
  jsonPath : List Seg
  headers : Option (List (List Char × List Char))

/-- Display key of a source: `result.source.name ?? result.source.url`
(src/index.ts lines 199 and 212). -/
def displayKey (s : Source) : List Char := s.name.getD s.url

/-- Per-source fetch result (`FetchedDramas`, src/index.ts lines 55-58). -/
structure FetchedDramas where
  source : Source
  titles : List (List Char)

/-- Keyed assignment modelling `headers[k] = v`, one step of `Object.assign`,
and `Map.set`: overwrite the value when the key is present, append the pair
otherwise (JavaScript object/Map insertion-order semantics). -/
def setKey {V : Type} (m : List (List Char × V)) (k : List Char) (v : V) :
    List (List Char × V) :=
  if m.any (fun p => decide (p.1 = k)) then
    m.map (fun p => if p.1 = k then (k, v) else p)
  else m ++ [(k, v)]

/-- Model of `Object.assign(target, source)`: assign every key of `source`
into `target` in order. -/
def objectAssign (target source : List (List Char × List Char)) :
    List (List Char × List Char) :=
  source.foldl (fun t kv => setKey t kv.1 kv.2) target

/-- First-match lookup in a JavaScript-object model (for an object built by
`setKey` every key occurs once, so first match is the property value). -/
def lookupKey : List (List Char × List Char) → List Char → Option (List Char)
  | [], _ => none
  | p :: ps, k => if p.1 = k then some p.2 else lookupKey ps k

/-- Header construction of `fetchDramasFromSource` (src/index.ts lines 65-73):
start from `{}`, set `User-Agent` when a user agent is given, then
`Object.assign` the source's own headers over it. -/
def buildHeaders (userAgent : Option (List Char))
    (sourceHeaders : Option (List (List Char × List Char))) :
    List (List Char × List Char) :=
  let h : List (List Char × List Char) :=
    match userAgent with
    | some ua => setKey [] ("User-Agent".toList) ua
    | none => []
  match sourceHeaders with
  | some hs => objectAssign h hs
  | none => h

/-- HTTP response model: `ok` flag (2xx), status text, and the outcome of
`response.json()` (an error when the body is not parseable JSON). -/
structure HttpResponse where
  ok : Bool
  statusText : List Char
  body : Except (List Char) Json

/-- Outcome of the `fetch(source.url, ...)` call: a transport-level failure
(DNS, TLS, timeout, reset — an exception), or a response. -/
inductive FetchOutcome
  | networkError (e : List Char)
  | response (r : HttpResponse)

/-- Model of `fetchDramasFromSource` (src/index.ts lines 60-93) as a function
of the fetch outcome.  The whole body is wrapped in try/catch, so every
throwing step (transport failure, `response.json()` on a non-JSON body) lands
in the catch branch returning `{source, titles: []}`; a non-2xx status returns
the same; otherwise the path query result (always an array here) is filtered
to its string elements. -/
def fetchDramasFromSource (source : Source) (outcome : FetchOutcome) :
    FetchedDramas :=
  match outcome with
  | .networkError _ => ⟨source, []⟩
  | .response r =>
    if !r.ok then ⟨source, []⟩
    else
      match r.body with
      | .error _ => ⟨source, []⟩
      | .ok j =>
        let titles := jsonPathQuery source.jsonPath j
        ⟨source, titles.filterMap (fun v =>
          match v with
          | .str s => some s
          | _ => none)⟩

/-- The new titles of one fetch result: `result.titles.filter((title) =>
!existingDramas.has(title))` (src/index.ts lines 208-210). -/
def newTitlesFor (existingDramas : List (List Char)) (r : FetchedDramas) :
    List (List Char) :=
  r.titles.filter (fun t => !(existingDramas.contains t))

/-- One iteration of the diff loop of `main` (src/index.ts lines 207-215),
carrying the `newDramasBySource` map (as an insertion-ordered association
list with JavaScript `Map.set` semantics) and the `totalNewDramas` counter. -/
def diffStep (existingDramas : List (List Char))
    (acc : List (List Char × List (List Char)) × Nat) (r : FetchedDramas) :
    List (List Char × List (List Char)) × Nat :=
  let nt := newTitlesFor existingDramas r
  if 0 < nt.length then (setKey acc.1 (displayKey r.source) nt, acc.2 + nt.length)
  else acc

/-- The diff loop of `main` (src/index.ts lines 204-215): fold over the fetch
results, producing the `newDramasBySource` map and `totalNewDramas`. -/
def computeNewDramas (existingDramas : List (List Char))
    (results : List FetchedDramas) :
    List (List Char × List (List Char)) × Nat :=
  results.foldl (diffStep existingDramas) ([], 0)

/-- The two externally visible actions of the tail of `main`. -/
inductive RunAction
  | append
  | notify
deriving DecidableEq

/-- Tail of `main` (src/index.ts lines 219-224): when `totalNewDramas === 0`
nothing is written or sent; otherwise `appendNewDramas` is awaited and then
`sendTelegramNotification` is awaited, in that order. -/
def mainFinalActions (existingDramas : List (List Char))
    (results : List FetchedDramas) : List RunAction :=
  if (computeNewDramas existingDramas results).2 = 0 then []
  else [RunAction.append, RunAction.notify]

/-! Lemmas about the line splitter and the trimming functions. -/

theorem splitLines_ne_nil (l : List Char) : splitLines l ≠ [] := by
  cases l with
  | nil => simp [splitLines]
  | cons c cs =>
    simp only [splitLines]
    by_cases h : c = '\n' <;> simp [h]

theorem splitLines_append_newline (xs ys : List Char) :
    splitLines (xs ++ '\n' :: ys) = splitLines xs ++ splitLines ys := by
  induction xs with
  | nil => simp [splitLines]
  | cons c cs ih =>
    by_cases h : c = '\n'
    · simp [splitLines, h, ih]
    · obtain ⟨l, ls, hls⟩ : ∃ l ls, splitLines cs = l :: ls := by
        cases hcs : splitLines cs with
        | nil => exact absurd hcs (splitLines_ne_nil cs)
        | cons l ls => exact ⟨l, ls, rfl⟩
      simp [splitLines, h, ih, hls]

theorem splitLines_of_no_newline (l : List Char) (h : '\n' ∉ l) :
    splitLines l = [l] := by
  induction l with
  | nil => rfl
  | cons c cs ih =>
    have hc : ¬ c = '\n' := fun hc => h (by simp [hc])
    have hcs : '\n' ∉ cs := fun hm => h (List.mem_cons_of_mem c hm)
    simp [splitLines, hc, ih hcs]

theorem dropWhile_append_last (p : Char → Bool) (xs : List Char) (c : Char)
    (h : p c = false) :
    (xs ++ [c]).dropWhile p = xs.dropWhile p ++ [c] := by
  induction xs with
  | nil => simp [List.dropWhile, h]
  | cons x xs ih =>
    by_cases hx : p x
    · simp [List.dropWhile_cons, hx, ih]
    · simp [List.dropWhile_cons, hx]

theorem trimRightC_cons (c : Char) (l : List Char) (h : isWS c = false) :
    trimRightC (c :: l) = c :: trimRightC l := by
  simp [trimRightC, dropWhile_append_last isWS l.reverse c h]

theorem trimC_cons (c : Char) (l : List Char) (h : isWS c = false) :
    trimC (c :: l) = c :: trimRightC l := by
  simp [trimC, trimLeftC, List.dropWhile_cons, h, trimRightC_cons c l h]

theorem length_trimRightC_le (l : List Char) :
    (trimRightC l).length ≤ l.length := by
  simpa [trimRightC] using (@List.dropWhile_sublist Char l.reverse isWS).length_le

theorem trimC_eq_self_parts (x : List Char) (h : trimC x = x) :
    trimLeftC x = x ∧ trimRightC x = x := by
  have h1 : (trimLeftC x).length ≤ x.length := (@List.dropWhile_sublist Char x isWS).length_le
  have h2 : x.length ≤ (trimLeftC x).length := by
    calc x.length = (trimC x).length := by rw [h]
    _ ≤ (trimLeftC x).length := length_trimRightC_le (trimLeftC x)
  have hL : trimLeftC x = x := by
    have hsfx : trimLeftC x <:+ x := @List.dropWhile_suffix Char x isWS
    exact List.IsSuffix.eq_of_length hsfx (le_antisymm h1 h2)
  exact ⟨hL, by rw [← hL]; rw [trimC] at h; rw [hL] at h ⊢; exact h⟩

theorem dropWhile_eq_self_head (p : Char → Bool) (y : Char) (ys : List Char)
    (h : (y :: ys).dropWhile p = y :: ys) : p y = false := by
  by_cases hy : p y
  · exfalso
    have : (ys.dropWhile p).length = (y :: ys).length := by
      rw [← h]; simp [List.dropWhile_cons, hy]
    have hle : (ys.dropWhile p).length ≤ ys.length := (@List.dropWhile_sublist Char ys p).length_le
    simp only [List.length_cons] at this
    omega
  · simpa using hy

theorem trimRightC_cons_of_trimmed (c : Char) (x : List Char)
    (hx : trimRightC x = x) (hne : x ≠ []) :
    trimRightC (c :: x) = c :: x := by
  have hrev : x.reverse.dropWhile isWS = x.reverse := by
    have := congrArg List.reverse hx
    simpa [trimRightC] using this
  obtain ⟨y, ys, hys⟩ : ∃ y ys, x.reverse = y :: ys := by
    cases hxr : x.reverse with
    | nil => exact absurd (by simpa using congrArg List.reverse hxr) hne
    | cons y ys => exact ⟨y, ys, rfl⟩
  have hy : isWS y = false := dropWhile_eq_self_head isWS y ys (hys ▸ hrev)
  have : (x.reverse ++ [c]).dropWhile isWS = x.reverse ++ [c] := by
    rw [hys]; simp [List.dropWhile_cons, hy]
  simp [trimRightC, this]

/-! Lemmas about `parseLine` on the line shapes produced by the renderer. -/

theorem parseLine_nil : parseLine [] = none := by decide

theorem parseLine_hash_hash (r : List Char) : parseLine ('#' :: '#' :: r) = none := by
  have h1 : trimC ('#' :: '#' :: r) = '#' :: '#' :: trimRightC r := by
    rw [trimC_cons '#' ('#' :: r) (by decide), trimRightC_cons '#' r (by decide)]
  simp [parseLine, h1, List.isPrefixOf]

theorem parseLine_dash (x : List Char) (hx : trimC x = x) (hne : x ≠ []) :
    parseLine (("- ".toList) ++ x) = some x := by
  obtain ⟨hL, hR⟩ := trimC_eq_self_parts x hx
  have hshape : ("- ".toList) ++ x = '-' :: ' ' :: x := rfl
  have h1 : trimC ('-' :: ' ' :: x) = '-' :: ' ' :: x := by
    rw [trimC_cons '-' (' ' :: x) (by decide)]
    rw [trimRightC_cons_of_trimmed ' ' x hR hne]
  rw [hshape]
  simp only [parseLine, h1]
  simp [List.isPrefixOf, hx]

theorem filterMap_parseLine_items (items : List (List Char))
    (h : ∀ x ∈ items, trimC x = x ∧ x ≠ []) :
    ((items.map (fun d => ("- ".toList) ++ d)).filterMap parseLine) = items := by
  induction items with
  | nil => rfl
  | cons x xs ih =>
    have hx := h x (by simp)
    simp only [List.map_cons, List.filterMap_cons, parseLine_dash x hx.1 hx.2]
    rw [ih (fun y hy => h y (List.mem_cons_of_mem x hy))]

theorem splitLines_joinNl (ls : List (List Char)) (h : ∀ l ∈ ls, '\n' ∉ l)
    (hne : ls ≠ []) : splitLines (joinNl ls) = ls := by
  induction ls with
  | nil => exact absurd rfl hne
  | cons x xs ih =>
    cases xs with
    | nil => simp [joinNl, splitLines_of_no_newline x (h x (by simp))]
    | cons y ys =>
      have hj : joinNl (x :: y :: ys) = x ++ '\n' :: joinNl (y :: ys) := rfl
      rw [hj, splitLines_append_newline, splitLines_of_no_newline x (h x (by simp)),
        ih (fun l hl => h l (List.mem_cons_of_mem x hl)) (by simp)]
      rfl

theorem sourceBlock_append_shape (name : List Char) (ds : List (List Char))
    (rest : List Char) :
    sourceBlock name ds ++ rest
      = (("### ".toList) ++ name)
        ++ '\n' :: (joinNl (ds.map (fun d => ("- ".toList) ++ d)) ++ '\n' :: rest) := by
  have h : ("\n".toList) = ['\n'] := rfl
  simp [sourceBlock, h, List.append_assoc]

theorem filterMap_parseLine_sourceBlock (name : List Char) (ds : List (List Char))
    (rest : List Char) (hname : '\n' ∉ name)
    (hds : ∀ x ∈ ds, ('\n' ∉ x) ∧ trimC x = x ∧ x ≠ []) :
    ((splitLines (sourceBlock name ds ++ rest)).filterMap parseLine)
      = ds ++ ((splitLines rest).filterMap parseLine) := by
  have hhdr : '\n' ∉ ("### ".toList) ++ name := by
    intro hmem
    rcases List.mem_append.mp hmem with h | h
    · exact absurd h (by decide)
    · exact hname h
  have hhdrShape : ("### ".toList) ++ name = '#' :: '#' :: ('#' :: ' ' :: name) := rfl
  rw [sourceBlock_append_shape, splitLines_append_newline,
    splitLines_of_no_newline _ hhdr, splitLines_append_newline]
  cases ds with
  | nil =>
    simp [joinNl, splitLines, List.filterMap_append, List.filterMap_cons,
      hhdrShape, parseLine_hash_hash, parseLine_nil]
  | cons d ds' =>
    have hlines : splitLines (joinNl ((d :: ds').map (fun d => ("- ".toList) ++ d)))
        = (d :: ds').map (fun d => ("- ".toList) ++ d) := by
      refine splitLines_joinNl _ (fun l hl => ?_) (by simp)
      obtain ⟨x, hx, rfl⟩ := List.mem_map.mp hl
      intro hmem
      rcases List.mem_append.mp hmem with h | h
      · exact absurd h (by decide)
      · exact (hds x hx).1 h
    rw [hlines]
    simp only [List.singleton_append, List.filterMap_cons, hhdrShape, parseLine_hash_hash,
      List.filterMap_append]
    rw [filterMap_parseLine_items _ (fun x hx => ⟨(hds x hx).2.1, (hds x hx).2.2⟩)]

theorem filterMap_parseLine_blocks (m : List (List Char × List (List Char)))
    (hm : ∀ e ∈ m, ('\n' ∉ e.1) ∧ ∀ x ∈ e.2, ('\n' ∉ x) ∧ trimC x = x ∧ x ≠ []) :
    ((splitLines ((m.map (fun e => sourceBlock e.1 e.2)).flatten)).filterMap parseLine)
      = (m.map (fun e => e.2)).flatten := by
  induction m with
  | nil => simp [splitLines, parseLine_nil]
  | cons e m' ih =>
    have he := hm e (by simp)
    simp only [List.map_cons, List.flatten_cons]
    rw [filterMap_parseLine_sourceBlock e.1 e.2 _ he.1 he.2]
    rw [ih (fun e' he' => hm e' (List.mem_cons_of_mem e he'))]

theorem getExistingDramasOfText_append_newSection (old : List Char)
    (m : List (List Char × List (List Char))) (ts : List Char)
    (hts : '\n' ∉ ts)
    (hm : ∀ e ∈ m, ('\n' ∉ e.1) ∧ ∀ x ∈ e.2, ('\n' ∉ x) ∧ trimC x = x ∧ x ≠ []) :
    getExistingDramasOfText (old ++ newSection m ts)
      = getExistingDramasOfText old ++ (m.map (fun e => e.2)).flatten := by
  have h1 : ("\n## ".toList) = '\n' :: ("## ".toList) := rfl
  have h2 : ("\n".toList) = ['\n'] := rfl
  have hshape : old ++ newSection m ts
      = old ++ '\n' :: ((("## ".toList) ++ ts)
          ++ '\n' :: (m.map (fun e => sourceBlock e.1 e.2)).flatten) := by
    simp [newSection, h1, h2, List.append_assoc]
  have hhdr : '\n' ∉ ("## ".toList) ++ ts := by
    intro hmem
    rcases List.mem_append.mp hmem with h | h
    · exact absurd h (by decide)
    · exact hts h
  have hhdrShape : ("## ".toList) ++ ts = '#' :: '#' :: (' ' :: ts) := rfl
  unfold getExistingDramasOfText
  rw [hshape, splitLines_append_newline, splitLines_append_newline,
    splitLines_of_no_newline _ hhdr, List.filterMap_append, List.filterMap_append,
    filterMap_parseLine_blocks m hm]
  simp [List.filterMap_cons, hhdrShape, parseLine_hash_hash]

/-- Bool-level fact that a list is a prefix test success on itself followed by
anything (models `startsWith`). -/
theorem isPrefixOf_append_self (l r : List Char) : (l.isPrefixOf (l ++ r)) = true := by
  induction l with
  | nil => simp [List.isPrefixOf]
  | cons a l ih => simp [List.isPrefixOf, ih]

theorem isPrefixOf_of_append (p q t : List Char)
    (h : ((p ++ q).isPrefixOf t) = true) : (p.isPrefixOf t) = true := by
  induction p generalizing t with
  | nil => simp [List.isPrefixOf]
  | cons a p' ih =>
    cases t with
    | nil => simp [List.isPrefixOf] at h
    | cons b t' =>
      simp only [List.cons_append, List.isPrefixOf] at h ⊢
      simp only [Bool.and_eq_true, beq_iff_eq] at h ⊢
      exact ⟨h.1, ih t' h.2⟩

/-! Claim theorems. -/

/-- C1 (code evaluated at the failing input): `appendNewDramas` writes the
items of a source in discovery order, performing no sort — with
`newDramasBySource = Map {src ↦ [B, A]}` the new section lists `- B` before
`- A`, not in ascending lexicographic order. -/
theorem newSection_keeps_discovery_order :
    splitLines (newSection [(("src".toList), ["B".toList, "A".toList])]
        ("01.01.2025 10:00".toList))
      = [[], "## 01.01.2025 10:00".toList, "### src".toList,
         "- B".toList, "- A".toList, []] := by decide

/-- C2 (counterexample): a ledger file that exists but whose read fails is
not treated as an empty known-items set — the error propagates out of
`getExistingDramas` and the run exits non-zero through `main().catch`. -/
theorem ledger_read_failure_not_recovered :
    getExistingDramas (LedgerFile.present (Except.error ("EACCES".toList)))
        = Except.error ("EACCES".toList)
    ∧ getExistingDramas (LedgerFile.present (Except.error ("EACCES".toList)))
        ≠ Except.ok []
    ∧ ledgerReadPhaseExit (LedgerFile.present (Except.error ("EACCES".toList))) = 1 :=
  ⟨rfl, fun h => Except.noConfusion h, rfl⟩

/-- C2 (amended): a missing ledger yields the empty known-items set and the
run continues, while a failing read of an existing ledger propagates its error
and terminates the run with exit code 1; a successful read parses the text. -/
theorem ledger_read_behavior (e : List Char) :
    getExistingDramas LedgerFile.absent = Except.ok []
    ∧ getExistingDramas (LedgerFile.present (Except.error e)) = Except.error e
    ∧ ledgerReadPhaseExit (LedgerFile.present (Except.error e)) = 1
    ∧ ∀ content, getExistingDramas (LedgerFile.present (Except.ok content))
        = Except.ok (getExistingDramasOfText content) :=
  ⟨rfl, rfl, rfl, fun _ => rfl⟩

/-- C4 (counterexample): the round-trip equality fails in general — an item
whose name ` a` carries a leading space is rendered as `-  a` and parses back
as `a`, so the parsed set of the appended ledger is not the old set unioned
with the item names of the new-items mapping. -/
theorem roundTrip_fails_on_untrimmed_item :
    ¬ ((" a".toList ∈ getExistingDramasOfText
          ([] ++ newSection [(("s".toList), [" a".toList])] ("t".toList)))
        ↔ ((" a".toList ∈ getExistingDramasOfText [])
            ∨ ∃ e ∈ [(("s".toList), [" a".toList])], " a".toList ∈ e.2)) := by
  decide

/-- C4 (amended): for every old ledger text, every new-items mapping and every
timestamp in which the timestamp and the source names are newline-free and
every item name is newline-free, non-empty and equal to its own trim (true of
every real rendered item that round-trips), parsing the old text with the new
section appended yields exactly the old parsed set unioned with the item
names of the mapping, irrespective of section or source grouping. -/
theorem roundTrip_readKnownItems (old : List Char)
    (m : List (List Char × List (List Char))) (ts : List Char)
    (hts : '\n' ∉ ts)
    (hm : ∀ e ∈ m, ('\n' ∉ e.1) ∧ ∀ x ∈ e.2, ('\n' ∉ x) ∧ trimC x = x ∧ x ≠ []) :
    ∀ y, y ∈ getExistingDramasOfText (appendNewDramas (some old) m ts)
      ↔ (y ∈ getExistingDramasOfText old ∨ ∃ e ∈ m, y ∈ e.2) := by
  intro y
  have happ : appendNewDramas (some old) m ts = old ++ newSection m ts := rfl
  rw [happ, getExistingDramasOfText_append_newSection old m ts hts hm,
    List.mem_append]
  constructor
  · rintro (h | h)
    · exact Or.inl h
    · obtain ⟨l, hl, hy⟩ := List.mem_flatten.mp h
      obtain ⟨e, hem, rfl⟩ := List.mem_map.mp hl
      exact Or.inr ⟨e, hem, hy⟩
  · rintro (h | ⟨e, hem, hy⟩)
    · exact Or.inl h
    · exact Or.inr (List.mem_flatten.mpr
        ⟨e.2, List.mem_map_of_mem (fun e => e.2) hem, hy⟩)

/-- Witness for the amended C4 theorem at a concrete ledger and mapping. -/
theorem roundTrip_readKnownItems_witness :
    ('\n' ∉ ("01.01.2025 10:00".toList))
    ∧ (("A".toList ∈ getExistingDramasOfText
          (appendNewDramas (some ("- B\n".toList))
            [(("s".toList), ["A".toList])] ("01.01.2025 10:00".toList)))
        ↔ (("A".toList ∈ getExistingDramasOfText ("- B\n".toList))
            ∨ ∃ e ∈ [(("s".toList), ["A".toList])], "A".toList ∈ e.2)) :=
  ⟨by decide,
    roundTrip_readKnownItems ("- B\n".toList) [(("s".toList), ["A".toList])]
      ("01.01.2025 10:00".toList) (by decide) (by decide) ("A".toList)⟩

/-- C5: the ledger append and the notification attempt happen iff the total
new-items count is at least one, and then the run performs exactly the action
sequence append-then-notify, so the append completes before the notification
attempt is made. -/
theorem mainFinalActions_spec (existingDramas : List (List Char))
    (results : List FetchedDramas) :
    (1 ≤ (computeNewDramas existingDramas results).2
      ↔ mainFinalActions existingDramas results = [RunAction.append, RunAction.notify])
    ∧ ((computeNewDramas existingDramas results).2 = 0
      ↔ mainFinalActions existingDramas results = []) := by
  unfold mainFinalActions
  by_cases h : (computeNewDramas existingDramas results).2 = 0 <;>
    (simp [h]; try omega)

/-- C7: any line whose trimmed form begins with a heading marker of level 1,
2 or 3 is rejected by the per-line parser of the ledger reader, so such lines
contribute nothing to the known-items set. -/
theorem heading_lines_excluded (l : List Char)
    (h : (("# ".toList).isPrefixOf (trimC l) = true)
      ∨ (("## ".toList).isPrefixOf (trimC l) = true)
      ∨ (("### ".toList).isPrefixOf (trimC l) = true)) :
    parseLine l = none := by
  unfold parseLine
  rcases h with h | h | h
  · simp only [h, Bool.not_true, Bool.and_false, Bool.false_and, if_false,
      Bool.false_eq_true, if_neg, reduceIte]
  · have h2 : (("##".toList).isPrefixOf (trimC l)) = true :=
      isPrefixOf_of_append ("##".toList) [' '] (trimC l) h
    simp only [h2, Bool.not_true, Bool.and_false, Bool.false_and, if_false,
      Bool.false_eq_true, if_neg, reduceIte]
  · have h2 : (("##".toList).isPrefixOf (trimC l)) = true :=
      isPrefixOf_of_append ("##".toList) ['#', ' '] (trimC l) h
    simp only [h2, Bool.not_true, Bool.and_false, Bool.false_and, if_false,
      Bool.false_eq_true, if_neg, reduceIte]

/-- Witness for C7 at a concrete level-3 source sub-header line. -/
theorem heading_lines_excluded_witness :
    (("### ".toList).isPrefixOf (trimC ("  ### Source A".toList)) = true)
    ∧ parseLine ("  ### Source A".toList) = none :=
  ⟨by decide, heading_lines_excluded ("  ### Source A".toList)
    (Or.inr (Or.inr (by decide)))⟩

/-- C9: the append operation writes the previous content followed by the new
section — the old content is a prefix of the written content (never truncated
or rewritten) — and when the file is absent the written content is exactly the
new section. -/
theorem appendNewDramas_extends (old : List Char)
    (m : List (List Char × List (List Char))) (ts : List Char) :
    appendNewDramas (some old) m ts = old ++ newSection m ts
    ∧ (old.isPrefixOf (appendNewDramas (some old) m ts)) = true
    ∧ appendNewDramas none m ts = newSection m ts :=
  ⟨rfl, isPrefixOf_append_self old (newSection m ts), rfl⟩

/-! Diff-engine lemmas (C3). -/

theorem setKey_mem {V : Type} (m : List (List Char × V)) (k : List Char) (v : V)
    (p : List Char × V) (hp : p ∈ setKey m k v) : p ∈ m ∨ p = (k, v) := by
  unfold setKey at hp
  by_cases hany : m.any (fun p => decide (p.1 = k)) = true
  · rw [if_pos hany] at hp
    obtain ⟨q, hq, hqe⟩ := List.mem_map.mp hp
    by_cases hk : q.1 = k
    · rw [if_pos hk] at hqe
      exact Or.inr hqe.symm
    · rw [if_neg hk] at hqe
      exact Or.inl (hqe ▸ hq)
  · rw [if_neg hany] at hp
    rcases List.mem_append.mp hp with h | h
    · exact Or.inl h
    · exact Or.inr (List.mem_singleton.mp h)

theorem computeNewDramas_fold_inv (existing : List (List Char))
    (rsAll : List FetchedDramas) (rs : List FetchedDramas)
    (acc : List (List Char × List (List Char)) × Nat)
    (hrs : ∀ r ∈ rs, r ∈ rsAll)
    (hacc : ∀ p ∈ acc.1,
      (∀ x ∈ p.2, (existing.contains x) = false)
      ∧ ∃ r ∈ rsAll, displayKey r.source = p.1 ∧ ∀ x ∈ p.2, x ∈ r.titles) :
    ∀ p ∈ (rs.foldl (diffStep existing) acc).1,
      (∀ x ∈ p.2, (existing.contains x) = false)
      ∧ ∃ r ∈ rsAll, displayKey r.source = p.1 ∧ ∀ x ∈ p.2, x ∈ r.titles := by
  induction rs generalizing acc with
  | nil => exact hacc
  | cons r rs' ih =>
    rw [List.foldl_cons]
    refine ih _ (fun q hq => hrs q (List.mem_cons_of_mem r hq)) ?_
    intro p hp
    unfold diffStep at hp
    by_cases hlen : 0 < (newTitlesFor existing r).length
    · rw [if_pos hlen] at hp
      rcases setKey_mem acc.1 (displayKey r.source) (newTitlesFor existing r) p hp with h | h
      · exact hacc p h
      · subst h
        constructor
        · intro x hx
          have := (List.mem_filter.mp hx).2
          simpa using this
        · exact ⟨r, hrs r (by simp), rfl,
            fun x hx => (List.mem_filter.mp hx).1⟩
    · rw [if_neg hlen] at hp
      exact hacc p hp

/-- C3: soundness and completeness of the per-source diff — every entry of
`newDramasBySource` contains no item already in the known-items set, and all
its items occur in the fetched titles of a result whose display key is that
entry's key. -/
theorem computeNewDramas_sound_complete (existing : List (List Char))
    (results : List FetchedDramas) (p : List Char × List (List Char))
    (hp : p ∈ (computeNewDramas existing results).1) :
    (∀ x ∈ p.2, (existing.contains x) = false)
    ∧ ∃ r ∈ results, displayKey r.source = p.1 ∧ ∀ x ∈ p.2, x ∈ r.titles :=
  computeNewDramas_fold_inv existing results results ([], 0)
    (fun _ h => h) (by simp) p hp

/-- Witness for C3 at a concrete known set and fetch result list. -/
theorem computeNewDramas_sound_complete_witness :
    ((("s".toList, ["A".toList]) : List Char × List (List Char))
        ∈ (computeNewDramas [("K".toList)]
            [⟨⟨some ("s".toList), "u".toList, [], none⟩,
              ["A".toList, "K".toList]⟩]).1)
    ∧ ((∀ x ∈ (("s".toList, ["A".toList]) : List Char × List (List Char)).2,
          (([("K".toList)]).contains x) = false)
        ∧ ∃ r ∈ [(⟨⟨some ("s".toList), "u".toList, [], none⟩,
              ["A".toList, "K".toList]⟩ : FetchedDramas)],
            displayKey r.source = ("s".toList, ["A".toList]).1
            ∧ ∀ x ∈ (("s".toList, ["A".toList]) : List Char × List (List Char)).2,
                x ∈ r.titles) :=
  ⟨by decide,
    computeNewDramas_sound_complete [("K".toList)]
      [⟨⟨some ("s".toList), "u".toList, [], none⟩, ["A".toList, "K".toList]⟩]
      ("s".toList, ["A".toList]) (by decide)⟩

/-- C6: the per-source fetch is a total function: for every outcome it returns
a result carrying the source; the titles are empty on a transport failure, on
a non-2xx response, on a body that is not parseable JSON, and on a path
expression matching zero nodes. -/
theorem fetchDramasFromSource_total (source : Source) :
    (∀ outcome, (fetchDramasFromSource source outcome).source = source)
    ∧ (∀ e, (fetchDramasFromSource source (FetchOutcome.networkError e)).titles = [])
    ∧ (∀ r, r.ok = false →
        (fetchDramasFromSource source (FetchOutcome.response r)).titles = [])
    ∧ (∀ st e, (fetchDramasFromSource source
        (FetchOutcome.response ⟨true, st, Except.error e⟩)).titles = [])
    ∧ (∀ st j, jsonPathQuery source.jsonPath j = [] →
        (fetchDramasFromSource source
          (FetchOutcome.response ⟨true, st, Except.ok j⟩)).titles = []) := by
  refine ⟨?_, fun e => rfl, ?_, fun st e => rfl, ?_⟩
  · intro outcome
    cases outcome with
    | networkError e => rfl
    | response r =>
      obtain ⟨ok, st, body⟩ := r
      cases ok <;> cases body <;> rfl
  · intro r h
    obtain ⟨ok, st, body⟩ := r
    cases h
    cases body <;> rfl
  · intro st j hj
    simp [fetchDramasFromSource, hj]

/-- Witness for C6 at a concrete source, failing response and empty-match
document. -/
theorem fetchDramasFromSource_total_witness :
    ((⟨false, "Internal Server Error".toList,
        Except.error ("broken".toList)⟩ : HttpResponse).ok = false)
    ∧ (fetchDramasFromSource
        ⟨some ("s".toList), "u".toList, [Seg.field ("title".toList)], none⟩
        (FetchOutcome.response ⟨false, "Internal Server Error".toList,
          Except.error ("broken".toList)⟩)).titles = []
    ∧ jsonPathQuery [Seg.field ("title".toList)] Json.null = []
    ∧ (fetchDramasFromSource
        ⟨some ("s".toList), "u".toList, [Seg.field ("title".toList)], none⟩
        (FetchOutcome.response ⟨true, "OK".toList, Except.ok Json.null⟩)).titles = [] :=
  ⟨rfl,
    (fetchDramasFromSource_total
      ⟨some ("s".toList), "u".toList, [Seg.field ("title".toList)], none⟩).2.2.1
      ⟨false, "Internal Server Error".toList, Except.error ("broken".toList)⟩ rfl,
    rfl,
    (fetchDramasFromSource_total
      ⟨some ("s".toList), "u".toList, [Seg.field ("title".toList)], none⟩).2.2.2.2
      ("OK".toList) Json.null rfl⟩

/-! Header-merge lemmas (C8). -/

theorem lookupKey_map_overwrite_found (k v : List Char)
    (m : List (List Char × List Char))
    (hany : m.any (fun p => decide (p.1 = k)) = true) :
    lookupKey (m.map (fun p => if p.1 = k then (k, v) else p)) k = some v := by
  induction m with
  | nil => simp at hany
  | cons p ps ih =>
    by_cases hpk : p.1 = k
    · simp [lookupKey, hpk]
    · have hps : ps.any (fun p => decide (p.1 = k)) = true := by
        simp only [List.any_cons, Bool.or_eq_true] at hany
        rcases hany with h | h
        · exact absurd (of_decide_eq_true h) hpk
        · exact h
      simp only [List.map_cons, if_neg hpk, lookupKey, hpk, if_false]
      exact ih hps

theorem lookupKey_append_single_found (k v : List Char)
    (m : List (List Char × List Char))
    (hany : m.any (fun p => decide (p.1 = k)) = false) :
    lookupKey (m ++ [(k, v)]) k = some v := by
  induction m with
  | nil => simp [lookupKey]
  | cons p ps ih =>
    simp only [List.any_cons, Bool.or_eq_false_iff, decide_eq_false_iff_not] at hany
    simp only [List.cons_append, lookupKey, hany.1, if_false]
    exact ih (by simp [hany.2])

theorem lookupKey_map_overwrite_other (k v k' : List Char) (hk : ¬ k = k')
    (m : List (List Char × List Char)) :
    lookupKey (m.map (fun p => if p.1 = k then (k, v) else p)) k'
      = lookupKey m k' := by
  induction m with
  | nil => rfl
  | cons p ps ih =>
    by_cases hpk : p.1 = k
    · have hp' : ¬ p.1 = k' := fun h => hk (hpk ▸ h)
      simp only [List.map_cons, if_pos hpk, lookupKey, hk, hp', if_false]
      exact ih
    · by_cases hp' : p.1 = k'
      · have hk' : ¬ k' = k := fun h => hk h.symm
        simp [lookupKey, hpk, hp', hk']
      · simp only [List.map_cons, if_neg hpk, lookupKey, hp', if_false]
        exact ih

theorem lookupKey_append_single_other (k v k' : List Char) (hk : ¬ k = k')
    (m : List (List Char × List Char)) :
    lookupKey (m ++ [(k, v)]) k' = lookupKey m k' := by
  induction m with
  | nil => simp [lookupKey, hk]
  | cons p ps ih =>
    by_cases hp' : p.1 = k'
    · simp [lookupKey, hp']
    · simp only [List.cons_append, lookupKey, hp', if_false]
      exact ih

theorem lookupKey_setKey_self (m : List (List Char × List Char))
    (k v : List Char) : lookupKey (setKey m k v) k = some v := by
  unfold setKey
  by_cases hany : m.any (fun p => decide (p.1 = k)) = true
  · rw [if_pos hany]
    exact lookupKey_map_overwrite_found k v m hany
  · rw [if_neg hany]
    have hf : m.any (fun p => decide (p.1 = k)) = false := by
      cases hb : m.any (fun p => decide (p.1 = k))
      · rfl
      · exact absurd hb hany
    exact lookupKey_append_single_found k v m hf

theorem lookupKey_setKey_other (m : List (List Char × List Char))
    (k v k' : List Char) (hk : ¬ k = k') :
    lookupKey (setKey m k v) k' = lookupKey m k' := by
  unfold setKey
  by_cases hany : m.any (fun p => decide (p.1 = k)) = true
  · rw [if_pos hany]
    exact lookupKey_map_overwrite_other k v k' hk m
  · rw [if_neg hany]
    exact lookupKey_append_single_other k v k' hk m

theorem lookupKey_eq_none_of_not_mem (m : List (List Char × List Char))
    (k : List Char) (h : k ∉ m.map Prod.fst) : lookupKey m k = none := by
  induction m with
  | nil => rfl
  | cons p ps ih =>
    have hk : ¬ p.1 = k := by
      intro hk
      exact h (by simp [← hk])
    simp only [lookupKey, hk, if_false]
    exact ih (fun hm => h (List.mem_cons_of_mem _ hm))

theorem lookupKey_objectAssign (hs : List (List Char × List Char)) :
    ∀ (t : List (List Char × List Char)) (k : List Char),
      ((hs.map Prod.fst).Nodup) →
      lookupKey (objectAssign t hs) k
        = match lookupKey hs k with
          | some v => some v
          | none => lookupKey t k := by
  induction hs with
  | nil => intro t k _; rfl
  | cons p hs' ih =>
    intro t k hnd
    simp only [List.map_cons, List.nodup_cons] at hnd
    obtain ⟨hp, hnd'⟩ := hnd
    have hfold : objectAssign t (p :: hs') = objectAssign (setKey t p.1 p.2) hs' := rfl
    rw [hfold, ih (setKey t p.1 p.2) k hnd']
    by_cases hk : p.1 = k
    · subst hk
      have hnone : lookupKey hs' p.1 = none :=
        lookupKey_eq_none_of_not_mem hs' p.1 hp


      simp [lookupKey, hnone, lookupKey_setKey_self]
    · have : lookupKey (setKey t p.1 p.2) k = lookupKey t k :=
        lookupKey_setKey_other t p.1 p.2 k hk
      simp [lookupKey, hk, this]

/-- C8: the outbound request's header mapping is the merge of the optional
`User-Agent` header with the source's own headers, the source's value winning
on a conflicting key — characterised by lookup over every key, for source
header objects (whose keys, being JavaScript object keys, are distinct). -/
theorem buildHeaders_merge (ua : List Char) (hs : List (List Char × List Char))
    (hnd : (hs.map Prod.fst).Nodup) :
    (∀ k, lookupKey (buildHeaders (some ua) (some hs)) k
        = match lookupKey hs k with
          | some v => some v
          | none => if ("User-Agent".toList) = k then some ua else none)
    ∧ (∀ k, lookupKey (buildHeaders none (some hs)) k = lookupKey hs k)
    ∧ buildHeaders (some ua) none = [(("User-Agent".toList), ua)]
    ∧ buildHeaders none none = [] := by
  refine ⟨?_, ?_, rfl, rfl⟩
  · intro k
    have hbase : buildHeaders (some ua) (some hs)
        = objectAssign [(("User-Agent".toList), ua)] hs := rfl
    rw [hbase, lookupKey_objectAssign hs _ k hnd]
    cases lookupKey hs k with
    | none => simp [lookupKey]
    | some v => rfl
  · intro k
    have hbase : buildHeaders none (some hs) = objectAssign [] hs := rfl
    rw [hbase, lookupKey_objectAssign hs [] k hnd]
    cases lookupKey hs k with
    | none => rfl
    | some v => rfl

/-- Witness for C8: with a configured user agent and a source that sets its
own `User-Agent`, the request carries the source's value. -/
theorem buildHeaders_merge_witness :
    ((([(("User-Agent".toList), ("source-agent".toList)),
        (("X-Token".toList), ("y".toList))]).map Prod.fst).Nodup)
    ∧ lookupKey (buildHeaders (some ("config-agent".toList))
        (some [(("User-Agent".toList), ("source-agent".toList)),
          (("X-Token".toList), ("y".toList))])) ("User-Agent".toList)
      = some ("source-agent".toList) :=
  ⟨by decide,
    ((buildHeaders_merge ("config-agent".toList)
      [(("User-Agent".toList), ("source-agent".toList)),
        (("X-Token".toList), ("y".toList))] (by decide)).1
      ("User-Agent".toList)).trans (by decide)⟩

/-! Duplicate-preservation lemmas (C10). -/

theorem splitLines_newSection_single (name : List Char) (ds : List (List Char))
    (ts : List Char) (hts : '\n' ∉ ts) (hname : '\n' ∉ name) :
    splitLines (newSection [(name, ds)] ts)
      = [] :: (("## ".toList) ++ ts) :: (("### ".toList) ++ name)
          :: (splitLines (joinNl (ds.map (fun d => ("- ".toList) ++ d))) ++ [[]]) := by
  have ha : ("\n## ".toList) = '\n' :: ("## ".toList) := rfl
  have hb : ("\n".toList) = ['\n'] := rfl
  have h1 : newSection [(name, ds)] ts
      = '\n' :: ((("## ".toList) ++ ts) ++ '\n' :: (sourceBlock name ds ++ [])) := by
    simp [newSection, ha, hb, List.append_assoc]
  have hhdr2 : '\n' ∉ ("## ".toList) ++ ts := by
    intro hmem
    rcases List.mem_append.mp hmem with h | h
    · exact absurd h (by decide)
    · exact hts h
  have hhdr3 : '\n' ∉ ("### ".toList) ++ name := by
    intro hmem
    rcases List.mem_append.mp hmem with h | h
    · exact absurd h (by decide)
    · exact hname h
  rw [h1]
  have h2 : splitLines ('\n' :: ((("## ".toList) ++ ts)
      ++ '\n' :: (sourceBlock name ds ++ [])))
      = [] :: splitLines ((("## ".toList) ++ ts)
          ++ '\n' :: (sourceBlock name ds ++ [])) := by
    simp [splitLines]
  rw [h2, splitLines_append_newline, splitLines_of_no_newline _ hhdr2,
    sourceBlock_append_shape, splitLines_append_newline,
    splitLines_of_no_newline _ hhdr3, splitLines_append_newline]
  rfl

theorem count_notdash_zero (x b : List Char) (hb : (b == ("- ".toList) ++ x) = false)
    (l : List (List Char)) :
    (b :: l).count (("- ".toList) ++ x) = l.count (("- ".toList) ++ x) := by
  have hne : ¬ b = '-' :: ' ' :: x := fun h => (beq_eq_false_iff_ne.mp hb) h
  simp [List.count_cons, hne]

theorem count_map_dash (x : List Char) (ds : List (List Char)) :
    (ds.map (fun d => ("- ".toList) ++ d)).count (("- ".toList) ++ x)
      = ds.count x := by
  induction ds with
  | nil => rfl
  | cons d ds ih =>
    simp only [List.map_cons, List.count_cons, ih]
    have hbeq : ((("- ".toList) ++ d) == (("- ".toList) ++ x)) = (d == x) := by
      by_cases h : d = x
      · simp [h]
      · have h2 : ¬ ("- ".toList) ++ d = ("- ".toList) ++ x :=
          fun he => h (by simpa using he)
        simp [h, h2]
    rw [hbeq]

/-- C10: when a title occurs several times in one source's fetched titles and
is not in the known-items set, the diff keeps every occurrence (the filter
preserves multiplicity), and the rendered new section contains one `- <item>`
line per occurrence. -/
theorem duplicates_kept (existing : List (List Char)) (r : FetchedDramas)
    (x name ts : List Char)
    (hx : (existing.contains x) = false)
    (hname : '\n' ∉ name) (hts : '\n' ∉ ts)
    (hall : ∀ t ∈ r.titles, '\n' ∉ t) :
    ((newTitlesFor existing r).count x = r.titles.count x)
    ∧ ((splitLines (newSection [(name, newTitlesFor existing r)] ts)).count
          (("- ".toList) ++ x)
        = r.titles.count x) := by
  have hfilter : (newTitlesFor existing r).count x = r.titles.count x := by
    unfold newTitlesFor
    exact List.count_filter (by simpa using hx)
  refine ⟨hfilter, ?_⟩
  have hdsnl : ∀ t ∈ newTitlesFor existing r, '\n' ∉ t :=
    fun t ht => hall t (List.mem_filter.mp ht).1
  rw [splitLines_newSection_single name (newTitlesFor existing r) ts hts hname]
  have hx1 : (([] : List Char) == ("- ".toList) ++ x) = false := by
    apply beq_eq_false_iff_ne.mpr
    intro h
    exact List.noConfusion h
  have hx2 : ((("## ".toList) ++ ts) == ("- ".toList) ++ x) = false := by
    apply beq_eq_false_iff_ne.mpr
    intro h
    have : '#' = '-' := by
      have h' : '#' :: '#' :: (' ' :: ts) = '-' :: ' ' :: x := h
      injection h'
    exact absurd this (by decide)
  have hx3 : ((("### ".toList) ++ name) == ("- ".toList) ++ x) = false := by
    apply beq_eq_false_iff_ne.mpr
    intro h
    have : '#' = '-' := by
      have h' : '#' :: '#' :: ('#' :: ' ' :: name) = '-' :: ' ' :: x := h
      injection h'
    exact absurd this (by decide)
  rw [count_notdash_zero _ _ hx1, count_notdash_zero _ _ hx2,
    count_notdash_zero _ _ hx3, List.count_append]
  have hcnt0 : (([[]] : List (List Char)).count (("- ".toList) ++ x)) = 0 := by
    simp [List.count_cons, hx1]
  cases hds : newTitlesFor existing r with
  | nil =>
    rw [← hfilter, hds]
    simp [joinNl, splitLines, List.count_cons, hx1]
  | cons d ds' =>
    have hlines : splitLines (joinNl ((d :: ds').map (fun d => ("- ".toList) ++ d)))
        = (d :: ds').map (fun d => ("- ".toList) ++ d) := by
      refine splitLines_joinNl _ (fun l hl => ?_) (by simp)
      obtain ⟨t, ht, rfl⟩ := List.mem_map.mp hl
      intro hmem
      rcases List.mem_append.mp hmem with h | h
      · exact absurd h (by decide)
      · exact hdsnl t (hds ▸ List.mem_cons.mpr (by
          rcases List.mem_cons.mp ht with h' | h'
          · exact Or.inl h'
          · exact Or.inr h')) h
    rw [hlines, hcnt0, count_map_dash x (d :: ds'), ← hfilter, hds]
    omega

/-- Witness for C10 at a concrete duplicated title. -/
theorem duplicates_kept_witness :
    ((([] : List (List Char)).contains ("A".toList)) = false)
    ∧ ((newTitlesFor []
          (⟨⟨some ("s".toList), "u".toList, [], none⟩,
            ["A".toList, "A".toList]⟩ : FetchedDramas)).count ("A".toList)
        = (["A".toList, "A".toList] : List (List Char)).count ("A".toList))
    ∧ ((splitLines (newSection
          [(("s".toList), newTitlesFor []
            (⟨⟨some ("s".toList), "u".toList, [], none⟩,
              ["A".toList, "A".toList]⟩ : FetchedDramas))]
          ("01.01.2025 10:00".toList))).count (("- ".toList) ++ ("A".toList))
        = (["A".toList, "A".toList] : List (List Char)).count ("A".toList)) := by
  have h := duplicates_kept []
    (⟨⟨some ("s".toList), "u".toList, [], none⟩,
      ["A".toList, "A".toList]⟩ : FetchedDramas)
    ("A".toList) ("s".toList) ("01.01.2025 10:00".toList)
    (by decide) (by decide) (by decide) (by decide)
  exact ⟨by decide, h.1, h.2⟩

/-- Witness for the amended C2 theorem at a concrete read error. -/
theorem ledger_read_behavior_witness :
    getExistingDramas (LedgerFile.present (Except.error ("EIO".toList)))
        = Except.error ("EIO".toList)
    ∧ ledgerReadPhaseExit (LedgerFile.present (Except.error ("EIO".toList))) = 1 :=
  ⟨(ledger_read_behavior ("EIO".toList)).2.1,
    (ledger_read_behavior ("EIO".toList)).2.2.1⟩

/-- Witness for C5 at a concrete fetch-result list with one new item. -/
theorem mainFinalActions_spec_witness :
    (1 ≤ (computeNewDramas []
        [(⟨⟨some ("s".toList), "u".toList, [], none⟩, ["A".toList]⟩ : FetchedDramas)]).2
      ↔ mainFinalActions []
          [(⟨⟨some ("s".toList), "u".toList, [], none⟩, ["A".toList]⟩ : FetchedDramas)]
        = [RunAction.append, RunAction.notify])
    ∧ ((computeNewDramas []
        [(⟨⟨some ("s".toList), "u".toList, [], none⟩, ["A".toList]⟩ : FetchedDramas)]).2 = 0
      ↔ mainFinalActions []
          [(⟨⟨some ("s".toList), "u".toList, [], none⟩, ["A".toList]⟩ : FetchedDramas)]
        = []) :=
  mainFinalActions_spec []
    [(⟨⟨some ("s".toList), "u".toList, [], none⟩, ["A".toList]⟩ : FetchedDramas)]

/-- Witness for C9 at a concrete existing ledger text. -/
theorem appendNewDramas_extends_witness :
    appendNewDramas (some ("old".toList)) [(("s".toList), ["A".toList])] ("t".toList)
        = ("old".toList) ++ newSection [(("s".toList), ["A".toList])] ("t".toList)
    ∧ (("old".toList).isPrefixOf (appendNewDramas (some ("old".toList))
        [(("s".toList), ["A".toList])] ("t".toList))) = true
    ∧ appendNewDramas none [(("s".toList), ["A".toList])] ("t".toList)
        = newSection [(("s".toList), ["A".toList])] ("t".toList) :=
  appendNewDramas_extends ("old".toList) [(("s".toList), ["A".toList])] ("t".toList)

end UNot
